import Mathlib

/-!
A verification development for the zlog structured-logging package.

Go byte strings are modelled as `List Char` (the development restricts
attention to valid-UTF-8 strings, so the byte-level UTF-8 decoding in the
source never hits the replacement-rune branch). Buffers (the `buffer` type
of the source) are likewise `List Char`, with the source's `Tail`,
`ReplaceTail` and `bytes.LastIndexByte` helpers translated below.

`slog.Level` values are modelled as `Int` (the source type is a defined
integer type). Fallible marshalers are modelled with `Except`.
-/

set_option autoImplicit false

/-- A Go string / byte slice, as a list of characters. -/
abbrev GoStr := List Char

/-- Shorthand to write a `GoStr` from a string literal. -/
def gs (s : String) : GoStr := s.data

/-- Models `buffer.Tail`: the last-written byte, if any. (The source indexes
`(*b)[len(*b)-1]` and would panic on an empty buffer; callers establish
non-emptiness, and the model totalizes with `Option`.) -/
def bufTail (b : GoStr) : Option Char := b.getLast?

/-- Models `buffer.ReplaceTail`: replace the last-written byte. -/
def replaceTail (b : GoStr) (c : Char) : GoStr := b.dropLast ++ [c]

/-- Models `bytes.LastIndexByte`: index of the last occurrence of `c` in `b`,
`-1` when absent. -/
def lastIndexByte (b : GoStr) (c : Char) : Int :=
  match b with
  | [] => -1
  | x :: xs =>
    let r := lastIndexByte xs c
    if r ≥ 0 then r + 1
    else if x = c then 0 else -1

/-- Go slicing `b[:i]` for a non-negative index produced by the
`lastIndexByte`/clamp pattern. -/
def truncAt (b : GoStr) (i : Int) : GoStr := b.take i.toNat

/-- One decimal digit character. -/
def digitChar (n : Nat) : Char :=
  match n with
  | 0 => '0' | 1 => '1' | 2 => '2' | 3 => '3' | 4 => '4'
  | 5 => '5' | 6 => '6' | 7 => '7' | 8 => '8' | _ => '9'

/-- Structural recursion core for `natDigits`: the fuel only bounds the
digit count (each step divides by ten, so `n + 1` steps always suffice
and the zero-fuel arm is unreachable from `natDigits`). -/
def natDigitsFuel : Nat → Nat → GoStr
  | 0, _ => []
  | fuel + 1, n =>
      if n < 10 then [digitChar n]
      else natDigitsFuel fuel (n / 10) ++ [digitChar (n % 10)]

/-- Decimal digits of a natural number, most significant first
(modelling `strconv.AppendUint` and the digit core of `AppendInt`). -/
def natDigits (n : Nat) : GoStr := natDigitsFuel (n + 1) n

/-- Models `strconv.AppendInt`: decimal digits with a leading minus sign for
negative values. -/
def intChars (i : Int) : GoStr :=
  (if i < 0 then ['-'] else []) ++ natDigits i.natAbs

/-- Models `fmt.Sprintf("%s%+d", base, val)` as used by `slog.Level.String`:
the delta printed with an explicit sign. -/
def signedIntChars (i : Int) : GoStr :=
  if i < 0 then '-' :: natDigits i.natAbs else '+' :: natDigits i.natAbs

/-- The local `str` closure of `slog.Level.String()`: the base name alone
for a zero delta, otherwise with the signed delta appended. -/
def levelBand (base : GoStr) (val : Int) : GoStr :=
  if val = 0 then base else base ++ signedIntChars val

/-- Models `slog.Level.String()` (the stdlib behavior the handler relies on):
a base name per severity band plus a signed offset when non-zero. -/
def levelChars (l : Int) : GoStr :=
  if l < 0 then levelBand (gs ("DEBUG")) (l + 4)
  else if l < 4 then levelBand (gs ("INFO")) l
  else if l < 8 then levelBand (gs ("WARN")) (l - 4)
  else levelBand (gs ("ERROR")) (l - 8)

/-- The `safeSet` table of `formatter_json.go`, as a predicate on an ASCII
character: everything from 0x20 through 0x7F except `"` and `\`. -/
def safeSet (c : Char) : Bool :=
  0x20 ≤ c.val && c.val < 0x80 && c ≠ '"' && c ≠ '\\'

/-- Hex digit characters, from the `hex` table of the source. -/
def hexChar (n : Nat) : Char :=
  match n with
  | 0 => '0' | 1 => '1' | 2 => '2' | 3 => '3' | 4 => '4'
  | 5 => '5' | 6 => '6' | 7 => '7' | 8 => '8' | 9 => '9'
  | 10 => 'a' | 11 => 'b' | 12 => 'c' | 13 => 'd' | 14 => 'e' | _ => 'f'

/-- Models `writeJSONString` on a single character: safe ASCII and all
multi-byte (≥ 0x80) runes of a valid-UTF-8 string pass through; `"`,
`\`, TAB, LF and CR get short escapes; remaining control bytes get
`\u00XX`. -/
def escapeChar (c : Char) : GoStr :=
  if 0x80 ≤ c.val then [c]
  else if safeSet c then [c]
  else if c = '\\' then ['\\', '\\']
  else if c = '"' then ['\\', '"']
  else if c = '\n' then ['\\', 'n']
  else if c = '\r' then ['\\', 'r']
  else if c = '\t' then ['\\', 't']
  else ['\\', 'u', '0', '0', hexChar (c.toNat / 16), hexChar (c.toNat % 16)]

/-- Models `writeJSONString`: escape a whole string. -/
def escapeJSON (s : GoStr) : GoStr := s.flatMap escapeChar

/-- Models `stateJSON`: open-group depth plus the wrote-any-attr bit. The Go
field is an `int`, so the model uses `Int`. -/
structure StateJSON where
  groups : Int
  wroteAttr : Bool
deriving Repr, DecidableEq

/-- Models `stateJSON.Reset`: depth from the seeded group stack, bit cleared.
The pre-formatted buffer argument is ignored by this state type. -/
def StateJSON.reset (_s : StateJSON) (g : List GoStr) (_prefmt : GoStr) : StateJSON :=
  { groups := g.length, wroteAttr := false }

/-- Models `statePool.Get` for the JSON state type: rent an arbitrary pooled
object and `Reset` it with the seeds. -/
def poolGetJSON (old : StateJSON) (g : List GoStr) (prefmt : GoStr) : StateJSON :=
  old.reset g prefmt

/-! ## The attribute model

`slog.Attr` values, restricted to the kinds the claims exercise: string,
bool, int64, group, and any-kind values that implement `json.Marshaler`
(and nothing else); such a value carries its `MarshalJSON` result and its
reflective `fmt` rendering. A mutual inductive keeps the recursion over
group members structural. -/

mutual
inductive AValue : Type where
  | vstr (s : GoStr)
  | vbool (b : Bool)
  | vint (i : Int)
  | vgroup (members : AttrList)
  | vany (marshalJSON : Except GoStr GoStr) (goFmt : GoStr)

inductive AttrList : Type where
  | anil : AttrList
  | acons (key : GoStr) (val : AValue) (rest : AttrList) : AttrList
end

/-! ## JSON formatter hooks (formatter_json.go) -/

/-- Models `formatterJSON.AppendKey`: `"key":` with the wrote-any-attr bit set. -/
def appendKeyJSON (b : GoStr) (st : StateJSON) (k : GoStr) : GoStr × StateJSON :=
  (b ++ '"' :: escapeJSON k ++ ['"', ':'], { st with wroteAttr := true })

/-- Models `formatterJSON.AppendString`: `"value",`. -/
def appendStringJSON (b : GoStr) (v : GoStr) : GoStr :=
  b ++ '"' :: escapeJSON v ++ ['"', ',']

/-- Models `formatterJSON.AppendBool`. -/
def appendBoolJSON (b : GoStr) (v : Bool) : GoStr :=
  b ++ (if v then gs ("true") else gs ("false")) ++ [',']

/-- Models `formatterJSON.AppendInt64`. -/
def appendInt64JSON (b : GoStr) (v : Int) : GoStr :=
  b ++ intChars v ++ [',']

/-- Models `formatterJSON.AppendAny` for a value that implements `json.Marshaler`
(and is not an `error`): on success the marshaled bytes are appended
verbatim plus a comma; on failure the error is returned with the buffer
untouched. -/
def appendAnyJSON (b : GoStr) (m : Except GoStr GoStr) : GoStr × Option GoStr :=
  match m with
  | .ok o => (b ++ o ++ [','], none)
  | .error e => (b, some e)

/-- Models `formatterJSON.PushGroup`: bump the depth and open `"name":\x7b`. -/
def pushGroupJSON (b : GoStr) (st : StateJSON) (g : GoStr) : GoStr × StateJSON :=
  (b ++ '"' :: escapeJSON g ++ ['"', ':', '{'], { st with groups := st.groups + 1 })

/-- Models `formatterJSON.PopGroup`: drop the depth, close the object (absorbing
a trailing comma), and append the separating comma. -/
def popGroupJSON (b : GoStr) (st : StateJSON) : GoStr × StateJSON :=
  let st2 : StateJSON := { st with groups := st.groups - 1 }
  let b2 := if bufTail b = some ',' then replaceTail b '}' else b ++ ['}']
  (b2 ++ [','], st2)

/-- Models `formatterJSON.WriteLevel`: note the level string is written raw
(`WriteString`), not through `writeJSONString`. -/
def writeLevelJSON (b : GoStr) (l : Int) : GoStr :=
  b ++ '"' :: escapeJSON (gs ("level")) ++ ['"', ':', '"'] ++ levelChars l ++ ['"', ',']

/-- Models `formatterJSON.WriteMessage`. -/
def writeMessageJSON (b : GoStr) (m : GoStr) : GoStr :=
  b ++ '"' :: escapeJSON (gs ("msg")) ++ ['"', ':', '"'] ++ escapeJSON m ++ ['"', ',']

/-! ## handler.appendAttr (handler.go) for the JSON formatter -/

mutual
/-- Models `handler.appendAttr` with the JSON hooks: resolve kind; non-group
attrs with an empty key are skipped, otherwise `AppendKey` plus the kind's
hook; a group with no members is skipped, an empty-keyed group is inlined,
and a named group is wrapped in `PushGroup`/`PopGroup`. The third
component is the error return value (only any-kind values produce one). -/
def appendAttrJSON (b : GoStr) (st : StateJSON) (k : GoStr) (v : AValue) :
    GoStr × StateJSON × Option GoStr :=
  match v with
  | .vgroup .anil => (b, st, none)
  | .vgroup (.acons k0 v0 rest) =>
      if k = [] then
        let p := appendAttrListJSON b st (.acons k0 v0 rest)
        (p.1, p.2, none)
      else
        let p := pushGroupJSON b st k
        let p2 := appendAttrListJSON p.1 p.2 (.acons k0 v0 rest)
        let p3 := popGroupJSON p2.1 p2.2
        (p3.1, p3.2, none)
  | .vstr s =>
      if k = [] then (b, st, none)
      else
        let p := appendKeyJSON b st k
        (appendStringJSON p.1 s, p.2, none)
  | .vbool v0 =>
      if k = [] then (b, st, none)
      else
        let p := appendKeyJSON b st k
        (appendBoolJSON p.1 v0, p.2, none)
  | .vint i =>
      if k = [] then (b, st, none)
      else
        let p := appendKeyJSON b st k
        (appendInt64JSON p.1 i, p.2, none)
  | .vany m _goFmt =>
      if k = [] then (b, st, none)
      else
        let p := appendKeyJSON b st k
        let q := appendAnyJSON p.1 m
        (q.1, p.2, q.2)

/-- The attr loops of `Handle`, `WithAttrs` and the group case of
`appendAttr`: each iteration calls `appendAttr` and discards its error
return, exactly as the source loops do. -/
def appendAttrListJSON (b : GoStr) (st : StateJSON) (as : AttrList) : GoStr × StateJSON :=
  match as with
  | .anil => (b, st)
  | .acons k v rest =>
      let p := appendAttrJSON b st k v
      appendAttrListJSON p.1 p.2.1 rest
end

/-! ## formatterJSON.End and Handle -/

/-- An index produced by `lastIndexByte` is below the length. -/
theorem lastIndexByte_lt_length (b : GoStr) (c : Char) :
    lastIndexByte b c < (b.length : Int) := by
  induction b with
  | nil => simp [lastIndexByte]
  | cons x xs ih =>
      simp only [lastIndexByte, List.length_cons]
      split
      · push_cast; omega
      · split <;> push_cast <;> omega

/-- Structural recursion core for the backward scan of
`formatterJSON.End`: while the buffer ends in an open brace, truncate
back to the last comma (or to empty) and drop one open-group count. Each
iteration strictly shortens the buffer (`lastIndexByte_lt_length`), so
fuel equal to the buffer length always suffices, and the zero-fuel arm
coincides with the loop's exit on an empty buffer. -/
def elideLoopFuel : Nat → GoStr → Int → GoStr × Int
  | 0, b, groups => (b, groups)
  | fuel + 1, b, groups =>
      if b ≠ [] ∧ bufTail b = some '{' then
        let i := lastIndexByte b ','
        let i2 := if i = -1 then 0 else i
        elideLoopFuel fuel (truncAt b i2) (groups - 1)
      else (b, groups)

/-- The backward scan in `formatterJSON.End`. -/
def elideLoop (b : GoStr) (groups : Int) : GoStr × Int :=
  elideLoopFuel b.length b groups

/-- Models `formatterJSON.End`: elide trailing empty groups when no attribute was
written, close the object (absorbing a trailing comma), close the open
groups, and terminate the line. -/
def endJSON (b : GoStr) (st : StateJSON) : GoStr :=
  let p := if st.wroteAttr then (b, st.groups) else elideLoop b st.groups
  let b2 := if bufTail p.1 = some ',' then replaceTail p.1 '}' else p.1 ++ ['}']
  b2 ++ List.replicate p.2.toNat '}' ++ ['\n']

/-- Models `handler.Handle` for a JSON handler, in the configuration the claims
exercise: source and time omitted, no baggage filter, no pprof labels.
The scratch state is rented from the pool seeded with the handler's group
stack and pre-formatted buffer; its post-`Reset` contents are independent
of the pooled object (see the state-pool theorems), so the model resets a
fixed one. Steps: `Start`, `WriteLevel`, `WriteMessage`, the pre-formatted
bytes, the record attrs, `End`. -/
def handleJSON (groups : List GoStr) (prefmt : GoStr) (l : Int) (msg : GoStr)
    (attrs : AttrList) : GoStr :=
  let st := poolGetJSON ⟨0, false⟩ groups prefmt
  let b : GoStr := ['{']
  let b := writeLevelJSON b l
  let b := writeMessageJSON b msg
  let b := b ++ prefmt
  let p := appendAttrListJSON b st attrs
  endJSON p.1 p.2

/-- Models `handler.Handle`'s returned error in the same configuration, with a
writer that accepts the full buffer: the attr loop discards `appendAttr`'s
return value (the `r.Attrs` closure ignores it), the writer returns a full
count and nil, so the handler returns nil and never invokes the
`WriteError` sink. -/
def handleJSONResult (groups : List GoStr) (prefmt : GoStr) (l : Int) (msg : GoStr)
    (attrs : AttrList) : GoStr × Option GoStr :=
  (handleJSON groups prefmt l msg attrs, none)

/-! ## Spec side: JSON values and the conformant serialization

The spec states C1 in terms of a conformant JSON parser. The development
states it as: the emitted line is exactly the standard serialization of a
JSON object computed from the attribute sequence, so a conformant parser
succeeds on it and yields that object. -/

mutual
inductive Json : Type where
  | jstr (s : GoStr)
  | jbool (b : Bool)
  | jint (i : Int)
  | jobj (entries : JEntries)

inductive JEntries : Type where
  | jnil : JEntries
  | jcons (key : GoStr) (val : Json) (rest : JEntries) : JEntries
end

/-- Concatenation of entry lists. -/
def jappend : JEntries → JEntries → JEntries
  | .jnil, es => es
  | .jcons k v rest, es => .jcons k v (jappend rest es)

mutual
/-- Standard JSON text of a value (strings escaped as the encoder escapes
them, which is conformant for valid-UTF-8 input). -/
def serialize : Json → GoStr
  | .jstr s => '"' :: escapeJSON s ++ ['"']
  | .jbool b => if b then gs ("true") else gs ("false")
  | .jint i => intChars i
  | .jobj es => '{' :: serializeEntries es ++ ['}']

/-- Comma-separated `"key":value` pairs. -/
def serializeEntries : JEntries → GoStr
  | .jnil => []
  | .jcons k v .jnil => '"' :: escapeJSON k ++ ['"', ':'] ++ serialize v
  | .jcons k v (.jcons k2 v2 rest) =>
      '"' :: escapeJSON k ++ ['"', ':'] ++ serialize v ++
        ',' :: serializeEntries (.jcons k2 v2 rest)
end

/-- One `"key":value,` unit, the shape in which the encoder emits every
entry (trailing comma included). -/
def renderEntry (k : GoStr) (v : Json) : GoStr :=
  '"' :: escapeJSON k ++ ['"', ':'] ++ serialize v ++ [',']

/-- All entries in emitted shape. -/
def renderEntries : JEntries → GoStr
  | .jnil => []
  | .jcons k v rest => renderEntry k v ++ renderEntries rest

/-! ## Spec side: the nesting functions

`specEntriesOrig` follows the claim C1 exactly: empty-keyed non-group
attributes are dropped, empty-keyed groups are inlined, named groups nest,
and a group whose members yield no entry is elided. `specEntriesAmended`
differs in precisely the point the counterexample forces: a named group
with a non-empty member list is emitted (as a possibly empty object) even
when none of its members yields an entry; only groups with an empty member
list are elided. -/

mutual
def specEntryOrig (k : GoStr) (v : AValue) : JEntries :=
  match v with
  | .vstr s => if k = [] then .jnil else .jcons k (.jstr s) .jnil
  | .vbool b => if k = [] then .jnil else .jcons k (.jbool b) .jnil
  | .vint i => if k = [] then .jnil else .jcons k (.jint i) .jnil
  | .vgroup ms =>
      if k = [] then specEntriesOrig ms
      else
        match specEntriesOrig ms with
        | .jnil => .jnil
        | .jcons k0 v0 rest => .jcons k (.jobj (.jcons k0 v0 rest)) .jnil
  | .vany _ _ => .jnil

def specEntriesOrig : AttrList → JEntries
  | .anil => .jnil
  | .acons k v rest => jappend (specEntryOrig k v) (specEntriesOrig rest)
end

mutual
def specEntryAmended (k : GoStr) (v : AValue) : JEntries :=
  match v with
  | .vstr s => if k = [] then .jnil else .jcons k (.jstr s) .jnil
  | .vbool b => if k = [] then .jnil else .jcons k (.jbool b) .jnil
  | .vint i => if k = [] then .jnil else .jcons k (.jint i) .jnil
  | .vgroup .anil => .jnil
  | .vgroup (.acons k0 v0 rest) =>
      if k = [] then specEntriesAmended (.acons k0 v0 rest)
      else .jcons k (.jobj (specEntriesAmended (.acons k0 v0 rest))) .jnil
  | .vany _ _ => .jnil

def specEntriesAmended : AttrList → JEntries
  | .anil => .jnil
  | .acons k v rest => jappend (specEntryAmended k v) (specEntriesAmended rest)
end

/-! No any-kind value occurs in the attribute tree (the C1 theorems are
stated for marshaler-free attributes, since an any-kind value's bytes are
whatever its marshaler produced). -/
mutual
def anyFreeV : AValue → Bool
  | .vstr _ => true
  | .vbool _ => true
  | .vint _ => true
  | .vgroup ms => anyFreeL ms
  | .vany _ _ => false

def anyFreeL : AttrList → Bool
  | .anil => true
  | .acons _ v rest => anyFreeV v && anyFreeL rest
end

/-! ## Shape lemmas for the emitted entry bytes -/

/-- A non-empty entry list renders with a trailing comma. -/
theorem renderEntries_cons_shape (k : GoStr) (v : Json) (rest : JEntries) :
    ∃ t : GoStr, renderEntries (.jcons k v rest) = t ++ [','] :=
  match rest with
  | .jnil =>
      ⟨'"' :: escapeJSON k ++ ['"', ':'] ++ serialize v,
        by simp [renderEntries, renderEntry]⟩
  | .jcons k2 v2 rest2 =>
      match renderEntries_cons_shape k2 v2 rest2 with
      | ⟨t, ht⟩ =>
        ⟨renderEntry k v ++ t, by
          simp only [renderEntries] at ht ⊢
          rw [ht, List.append_assoc]⟩

/-- Entry-with-comma units concatenated equal the comma-separated
serialization plus one trailing comma. -/
theorem renderEntries_eq_serializeEntries (k : GoStr) (v : Json) (rest : JEntries) :
    renderEntries (.jcons k v rest) = serializeEntries (.jcons k v rest) ++ [','] :=
  match rest with
  | .jnil => by simp [renderEntries, renderEntry, serializeEntries]
  | .jcons k2 v2 rest2 => by
      have ih := renderEntries_eq_serializeEntries k2 v2 rest2
      simp only [renderEntries] at ih ⊢
      rw [ih]
      simp [renderEntry, serializeEntries]

/-- The map `renderEntries` is a homomorphism for entry concatenation. -/
theorem renderEntries_jappend (es1 es2 : JEntries) :
    renderEntries (jappend es1 es2) = renderEntries es1 ++ renderEntries es2 :=
  match es1 with
  | .jnil => by simp [jappend, renderEntries]
  | .jcons k v rest => by
      have ih := renderEntries_jappend rest es2
      simp [jappend, renderEntries, ih]

/-! ## The encoder's escaping fixes safe strings -/

/-- Escaping distributes over concatenation. -/
theorem escapeJSON_append (a b : GoStr) :
    escapeJSON (a ++ b) = escapeJSON a ++ escapeJSON b := by
  simp [escapeJSON]

/-- Decimal digit characters are in the safe set. -/
theorem escapeChar_digitChar (n : Nat) : escapeChar (digitChar n) = [digitChar n] := by
  unfold digitChar
  split <;> decide

/-- Decimal renderings escape to themselves (on the fuel core). -/
theorem escapeJSON_natDigitsFuel (fuel n : Nat) :
    escapeJSON (natDigitsFuel fuel n) = natDigitsFuel fuel n := by
  induction fuel generalizing n with
  | zero => rfl
  | succ fuel ih =>
      rw [natDigitsFuel]
      split
      · simp [escapeJSON, escapeChar_digitChar]
      · rw [escapeJSON_append, ih (n / 10)]
        simp [escapeJSON, escapeChar_digitChar]

/-- Decimal renderings escape to themselves. -/
theorem escapeJSON_natDigits (n : Nat) : escapeJSON (natDigits n) = natDigits n :=
  escapeJSON_natDigitsFuel (n + 1) n

/-- Signed decimal renderings escape to themselves. -/
theorem escapeJSON_signedIntChars (i : Int) :
    escapeJSON (signedIntChars i) = signedIntChars i := by
  have hm : escapeChar '-' = ['-'] := by decide
  have hp : escapeChar '+' = ['+'] := by decide
  have hd := escapeJSON_natDigits i.natAbs
  unfold signedIntChars
  split <;>
    simp only [escapeJSON, List.flatMap_cons, hm, hp] <;>
    simp only [escapeJSON] at hd <;>
    rw [hd] <;>
    rfl

/-- Each severity band's rendering escapes to itself. -/
theorem escapeJSON_levelBand (base : GoStr) (val : Int)
    (h : escapeJSON base = base) :
    escapeJSON (levelBand base val) = levelBand base val := by
  unfold levelBand
  split
  · exact h
  · rw [escapeJSON_append, h, escapeJSON_signedIntChars]

/-- Level names (`slog.Level.String()`) escape to themselves: the encoder
may emit them raw inside a JSON string. -/
theorem escapeJSON_levelChars (l : Int) :
    escapeJSON (levelChars l) = levelChars l := by
  unfold levelChars
  split
  · exact escapeJSON_levelBand _ _ (by decide)
  · split
    · exact escapeJSON_levelBand _ _ (by decide)
    · split
      · exact escapeJSON_levelBand _ _ (by decide)
      · exact escapeJSON_levelBand _ _ (by decide)

/-! ## The heart of C1: appendAttr emits exactly the rendered spec entries -/

/-! Whether processing the attribute calls `AppendKey` (and therefore sets
the wrote-any-attr bit): every non-skipped non-group attribute does; group
push/pop does not, but group members may. -/
mutual
def hasKeyV (k : GoStr) : AValue → Bool
  | .vstr _ => k ≠ []
  | .vbool _ => k ≠ []
  | .vint _ => k ≠ []
  | .vgroup ms => hasKeyL ms
  | .vany _ _ => k ≠ []

def hasKeyL : AttrList → Bool
  | .anil => false
  | .acons k v rest => hasKeyV k v || hasKeyL rest
end

/-- The last byte of a buffer that ends in a written byte. -/
theorem bufTail_concat (b : GoStr) (c : Char) : bufTail (b ++ [c]) = some c := by
  simp [bufTail]

/-- Applying `PopGroup` on a buffer ending in an open brace appends the close. -/
theorem popGroupJSON_tail_open (b : GoStr) (st : StateJSON) :
    popGroupJSON (b ++ ['{']) st =
      (b ++ ['{', '}', ','], { st with groups := st.groups - 1 }) := by
  unfold popGroupJSON
  rw [bufTail_concat, if_neg (by decide)]
  simp

/-- Applying `PopGroup` on a buffer ending in a comma absorbs the comma. -/
theorem popGroupJSON_tail_comma (b : GoStr) (st : StateJSON) :
    popGroupJSON (b ++ [',']) st =
      (b ++ ['}', ','], { st with groups := st.groups - 1 }) := by
  unfold popGroupJSON
  rw [bufTail_concat, if_pos rfl]
  simp [replaceTail]

/-! For marshaler-free attributes, `handler.appendAttr` appends precisely
the entry units of the (amended) spec nesting function, returns no error,
restores the open-group depth (pushes and pops balance), and ORs the
wrote-any-attr bit with whether any key was appended. -/

mutual
theorem appendAttrJSON_spec : ∀ (v : AValue) (b : GoStr) (st : StateJSON) (k : GoStr),
    anyFreeV v = true →
    appendAttrJSON b st k v =
      (b ++ renderEntries (specEntryAmended k v),
        ⟨st.groups, st.wroteAttr || hasKeyV k v⟩, none)
  | .vstr s, b, st, k, _h => by
      by_cases hk : k = [] <;>
        simp [appendAttrJSON, hk, specEntryAmended, renderEntries, renderEntry,
          appendKeyJSON, appendStringJSON, serialize, hasKeyV]
  | .vbool v0, b, st, k, _h => by
      by_cases hk : k = [] <;>
        simp [appendAttrJSON, hk, specEntryAmended, renderEntries, renderEntry,
          appendKeyJSON, appendBoolJSON, serialize, hasKeyV]
  | .vint i, b, st, k, _h => by
      by_cases hk : k = [] <;>
        simp [appendAttrJSON, hk, specEntryAmended, renderEntries, renderEntry,
          appendKeyJSON, appendInt64JSON, serialize, hasKeyV]
  | .vany m g, _b, _st, _k, h => by
      simp [anyFreeV] at h
  | .vgroup .anil, b, st, k, _h => by
      simp [appendAttrJSON, specEntryAmended, renderEntries, hasKeyV, hasKeyL]
  | .vgroup (.acons k0 v0 rest), b, st, k, h => by
      have hm : anyFreeL (.acons k0 v0 rest) = true := by
        simpa [anyFreeV] using h
      by_cases hk : k = []
      · have ih := appendAttrListJSON_spec (.acons k0 v0 rest) b st hm
        simp [appendAttrJSON, hk, ih, specEntryAmended, hasKeyV]
      · have ih := appendAttrListJSON_spec (.acons k0 v0 rest)
          (b ++ '"' :: escapeJSON k ++ ['"', ':', '{'])
          { st with groups := st.groups + 1 } hm
        simp only [appendAttrJSON, if_neg hk, pushGroupJSON, ih]
        cases hes : specEntriesAmended (.acons k0 v0 rest) with
        | jnil =>
            simp only [renderEntries, List.append_nil]
            have hsh : b ++ '"' :: escapeJSON k ++ ['"', ':', '{'] =
                (b ++ '"' :: escapeJSON k ++ ['"', ':']) ++ ['{'] := by simp
            rw [hsh, popGroupJSON_tail_open]
            simp [specEntryAmended, hk, hes, renderEntries, renderEntry, serialize,
              serializeEntries, hasKeyV]
        | jcons ek ev erest =>
            rw [renderEntries_eq_serializeEntries]
            have hsh : b ++ '"' :: escapeJSON k ++ ['"', ':', '{'] ++
                (serializeEntries (.jcons ek ev erest) ++ [',']) =
                (b ++ '"' :: escapeJSON k ++ ['"', ':', '{'] ++
                  serializeEntries (.jcons ek ev erest)) ++ [','] := by simp
            rw [hsh, popGroupJSON_tail_comma]
            simp [specEntryAmended, hk, hes, renderEntries, renderEntry, serialize,
              hasKeyV]

theorem appendAttrListJSON_spec : ∀ (as : AttrList) (b : GoStr) (st : StateJSON),
    anyFreeL as = true →
    appendAttrListJSON b st as =
      (b ++ renderEntries (specEntriesAmended as),
        ⟨st.groups, st.wroteAttr || hasKeyL as⟩)
  | .anil, b, st, _h => by
      simp [appendAttrListJSON, specEntriesAmended, renderEntries, hasKeyL]
  | .acons k v rest, b, st, h => by
      have hv : anyFreeV v = true := by
        simp [anyFreeL] at h; exact h.1
      have hr : anyFreeL rest = true := by
        simp [anyFreeL] at h; exact h.2
      have ihv := appendAttrJSON_spec v b st k hv
      have ihr := appendAttrListJSON_spec rest
        (b ++ renderEntries (specEntryAmended k v))
        ⟨st.groups, st.wroteAttr || hasKeyV k v⟩ hr
      simp only [appendAttrListJSON, ihv, ihr, specEntriesAmended,
        renderEntries_jappend, hasKeyL]
      simp [Bool.or_assoc]
end

/-! ## Assembling the full JSON record -/

/-- The elision scan does nothing when the buffer ends in a comma. -/
theorem elideLoop_tail_comma (b : GoStr) (g : Int) :
    elideLoop (b ++ [',']) g = (b ++ [','], g) := by
  rw [elideLoop]
  rw [List.length_append, List.length_singleton, elideLoopFuel]
  rw [if_neg]
  intro hcontr
  have := hcontr.2
  rw [bufTail_concat] at this
  exact absurd (Option.some.inj this) (by decide)

/-- Evaluating `formatterJSON.End` on a buffer ending in a comma: the comma becomes
the closing brace, open groups are closed, and the newline terminates. -/
theorem endJSON_tail_comma (b : GoStr) (st : StateJSON) :
    endJSON (b ++ [',']) st =
      b ++ ['}'] ++ List.replicate st.groups.toNat '}' ++ ['\n'] := by
  unfold endJSON
  cases hw : st.wroteAttr <;>
    simp [hw, elideLoop_tail_comma, bufTail_concat, replaceTail]

/-- Handy name for the full entry list of a modelled record: the level and
message header entries followed by the record-attribute entries. -/
def recordEntries (l : Int) (msg : GoStr) (as : AttrList) : JEntries :=
  .jcons (gs ("level")) (.jstr (levelChars l))
    (.jcons (gs ("msg")) (.jstr msg) (specEntriesAmended as))

/-- C1, amended, general form: the emitted line is exactly the standard
serialization of the spec-side object, newline-terminated. -/
theorem handleJSON_eq_serialize (l : Int) (msg : GoStr) (as : AttrList)
    (h : anyFreeL as = true) :
    handleJSON [] [] l msg as = serialize (.jobj (recordEntries l msg as)) ++ ['\n'] := by
  simp only [handleJSON, poolGetJSON, StateJSON.reset, List.length_nil, Nat.cast_zero,
    List.append_nil, writeLevelJSON, writeMessageJSON]
  rw [appendAttrListJSON_spec as _ ⟨(0 : Int), false⟩ h]
  have h2 := renderEntries_eq_serializeEntries (gs ("level")) (.jstr (levelChars l))
    (.jcons (gs ("msg")) (.jstr msg) (specEntriesAmended as))
  have hB : (['{'] ++ '"' :: escapeJSON (gs ("level")) ++ ['"', ':', '"'] ++ levelChars l ++
      ['"', ','] ++ '"' :: escapeJSON (gs ("msg")) ++ ['"', ':', '"'] ++ escapeJSON msg ++
      ['"', ','] ++ renderEntries (specEntriesAmended as)) =
      ('{' :: serializeEntries (recordEntries l msg as)) ++ [','] := by
    rw [recordEntries]
    conv_rhs => rw [List.cons_append]
    rw [← h2]
    simp [renderEntries, renderEntry, serialize, escapeJSON_levelChars]
  rw [hB, endJSON_tail_comma]
  simp [serialize]

/-! ## handler.Enabled and the logging pipeline -/

/-- Models `handler.Enabled`: start from `slog.LevelInfo` (0), take the options
level when the `Leveler` is non-nil, then take the context override when
the context carries one, and compare. -/
def enabled (optLevel : Option Int) (ctxLevel : Option Int) (l : Int) : Bool :=
  let min0 : Int := 0
  let min1 : Int := match optLevel with | some v => v | none => min0
  let min2 : Int := match ctxLevel with | some v => v | none => min1
  decide (l ≥ min2)

/-- Modelled from the spec: the `slog` logging pipeline around the
handler, which per the `slog.Handler` contract invokes `Handle` only when
`Enabled` reports true (the facade itself is outside this repository).
The result is the bytes handed to the writer, or `none` when no handle
call is made. -/
def logPipeline (optLevel ctxLevel : Option Int) (groups : List GoStr) (prefmt : GoStr)
    (l : Int) (msg : GoStr) (attrs : AttrList) : Option GoStr :=
  if enabled optLevel ctxLevel l then some (handleJSON groups prefmt l msg attrs) else none

/-- The hook `formatterJSON.End` always terminates the line, so its output is never
empty. -/
theorem endJSON_ne_nil (b : GoStr) (st : StateJSON) : endJSON b st ≠ [] := by
  unfold endJSON
  intro hcontr
  rcases List.append_eq_nil.mp hcontr with ⟨-, h2⟩
  exact absurd h2 (by simp)

/-- A JSON handle call always emits at least the record framing. -/
theorem handleJSON_ne_nil (groups : List GoStr) (prefmt : GoStr) (l : Int)
    (msg : GoStr) (attrs : AttrList) :
    handleJSON groups prefmt l msg attrs ≠ [] := by
  simp only [handleJSON]
  exact endJSON_ne_nil _ _

/-! ## Journal encoder (the journal formatter source file)

The `prefix` field of `stateJournal` is named `pfx` here (the source's
field name is not usable as a Lean identifier in this development). The
`handler.appendAttr` logic is the same generic method as for JSON,
monomorphized to the journal hooks. -/

/-- Models `stateJournal`: the group stack, the dot-joined key prefix, and the
retained clone of the pre-formatted buffer. -/
structure StateJournal where
  groups : List GoStr
  pfx : GoStr
  prefmt : GoStr
deriving Repr, DecidableEq

/-- Models `stateJournal.pushGroup`: extend the stack; a dot then the name onto a
non-empty prefix, the bare name otherwise. -/
def pushGroupJournal (s : StateJournal) (g : GoStr) : StateJournal :=
  { s with groups := s.groups ++ [g],
           pfx := (if s.pfx.length > 0 then s.pfx ++ ['.'] else s.pfx) ++ g }

/-- Models `PopGroup` of the journal (and prose) formatter: drop the last group,
find the last dot, decrement the index once more, clamp at zero, and
truncate the prefix there. -/
def popGroupJournal (s : StateJournal) : StateJournal :=
  { s with groups := s.groups.dropLast,
           pfx :=
             let i := lastIndexByte s.pfx '.'
             let i2 := i - 1
             let i3 := if i2 < 0 then 0 else i2
             truncAt s.pfx i3 }

/-- Models `stateJournal.Reset`: release the held pre-formatted clone, clone the
new one, truncate stack and prefix, and re-push the seeded groups. -/
def resetJournal (_s : StateJournal) (g : List GoStr) (prefmt : GoStr) : StateJournal :=
  g.foldl pushGroupJournal { groups := [], pfx := [], prefmt := prefmt }

/-- Models `statePool.Get` for the journal state type. -/
def poolGetJournal (old : StateJournal) (g : List GoStr) (prefmt : GoStr) : StateJournal :=
  resetJournal old g prefmt

/-- Models `levelToPriority`: the syslog cascade; levels above emergency leave
the zero byte (the Go switch has no default). -/
def levelToPriority (l : Int) : Char :=
  if l ≤ -4 then '7'
  else if l ≤ 0 then '6'
  else if l ≤ 2 then '5'
  else if l ≤ 4 then '4'
  else if l ≤ 8 then '3'
  else if l ≤ 12 then '2'
  else if l ≤ 16 then '1'
  else if l ≤ 20 then '0'
  else '\x00'

/-- Eight-byte little-endian length, as `binary.LittleEndian.AppendUint64`. -/
def le64Chars (n : Nat) : GoStr :=
  (List.range 8).map (fun i => Char.ofNat ((n >>> (8 * i)) % 256))

/-- Models `journalString`: values with a newline switch the `=` to `\n` and get
the 8-byte length prefix; either way the raw value and a newline follow. -/
def journalString (b : GoStr) (v : GoStr) : GoStr :=
  (if '\n' ∈ v then replaceTail b '\n' ++ le64Chars v.length else b) ++ v ++ ['\n']

/-- Journal `AppendKey`: prefix plus dot when a prefix is present, the key
verbatim, then `=`. -/
def appendKeyJournal (b : GoStr) (s : StateJournal) (k : GoStr) : GoStr :=
  (if s.pfx.length ≠ 0 then b ++ s.pfx ++ ['.'] else b) ++ k ++ ['=']

mutual
/-- Models `handler.appendAttr` with the journal hooks. The modelled any-kind
value (a `json.Marshaler`-only value) matches none of the journal's
interface tests and reaches the reflective default branch: an 8-byte
length prefix, the `fmt` rendering, and a newline; no error is produced
for the modelled kinds. -/
def appendAttrJournal (b : GoStr) (s : StateJournal) (k : GoStr) (v : AValue) :
    GoStr × StateJournal :=
  match v with
  | .vgroup .anil => (b, s)
  | .vgroup (.acons k0 v0 rest) =>
      if k = [] then appendAttrListJournal b s (.acons k0 v0 rest)
      else
        let s1 := pushGroupJournal s k
        let p := appendAttrListJournal b s1 (.acons k0 v0 rest)
        (p.1, popGroupJournal p.2)
  | .vstr str => if k = [] then (b, s) else (journalString (appendKeyJournal b s k) str, s)
  | .vbool v0 =>
      if k = [] then (b, s)
      else (appendKeyJournal b s k ++ (if v0 then gs ("true") else gs ("false")) ++ ['\n'], s)
  | .vint i =>
      if k = [] then (b, s)
      else (appendKeyJournal b s k ++ intChars i ++ ['\n'], s)
  | .vany _ goFmt =>
      if k = [] then (b, s)
      else (appendKeyJournal b s k ++ le64Chars goFmt.length ++ goFmt ++ ['\n'], s)

/-- The journal-side attr loop (errors of the modelled kinds are nil). -/
def appendAttrListJournal (b : GoStr) (s : StateJournal) (as : AttrList) :
    GoStr × StateJournal :=
  match as with
  | .anil => (b, s)
  | .acons k v rest =>
      let p := appendAttrJournal b s k v
      appendAttrListJournal p.1 p.2 rest
end

/-- Models `handler.Handle` for a journal handler in the modelled configuration
(source and time omitted, no baggage, no pprof labels): `PRIORITY`,
`MESSAGE`, the pre-formatted bytes, then the record attrs; `Start` and
`End` are no-ops. -/
def handleJournal (groups : List GoStr) (prefmt : GoStr) (l : Int) (msg : GoStr)
    (attrs : AttrList) : GoStr :=
  let s := poolGetJournal ⟨[], [], []⟩ groups prefmt
  let b : GoStr := []
  let b := b ++ gs ("PRIORITY=") ++ [levelToPriority l] ++ ['\n']
  let b := journalString (b ++ gs ("MESSAGE=")) msg
  let b := b ++ prefmt
  (appendAttrListJournal b s attrs).1

/-- Models `handler.WithAttrs` for a journal handler: clone the pre-formatted
buffer, rent a state seeded with the current groups and the original
pre-formatted buffer, encode the new attrs into the clone; the result is
the derived handler's pre-formatted buffer (its groups are unchanged). -/
def withAttrsJournal (groups : List GoStr) (prefmt : GoStr) (attrs : AttrList) : GoStr :=
  let s := poolGetJournal ⟨[], [], []⟩ groups prefmt
  (appendAttrListJournal prefmt s attrs).1

/-! ## Claim C3 -/

/-- C3: the enabled test computes min as the options level when set and
info (0) otherwise, replaces it with the context override when one is
carried — even when the override is lower — and reports `l ≥ min`. -/
theorem c3_enabled_min_formula :
    ∀ (optLevel ctxLevel : Option Int) (l : Int),
      (enabled optLevel ctxLevel l = true ↔ l ≥ ctxLevel.getD (optLevel.getD 0)) ∧
      (∀ ov : Int, enabled optLevel (some ov) l = enabled none (some ov) l) := by
  intro o c l
  constructor
  · cases o <;> cases c <;> simp [enabled, Option.getD]
  · intro ov
    cases o <;> simp [enabled]

/-! ## Claim C4 -/

/-- C4 counterexample: with a minimum level of error (8) and no context
override, `Enabled` at info (0) is false, yet a direct `Handle` call at
info still writes a non-empty record: `Handle` never consults `Enabled`. -/
theorem c4_counterexample :
    enabled (some 8) none 0 = false ∧
    handleJSON [] [] 0 (gs ("m")) .anil ≠ [] := by
  constructor
  · decide
  · decide

/-- C4, amended: `Handle` itself writes unconditionally (it always emits a
non-empty record), and the enabled/writes-bytes equivalence holds for the
logging pipeline, which per the `slog.Handler` contract invokes `Handle`
only when `Enabled` reports true. -/
theorem c4_amended_pipeline_gating :
    ∀ (optLevel ctxLevel : Option Int) (groups : List GoStr) (prefmt : GoStr)
      (l : Int) (msg : GoStr) (attrs : AttrList),
      (logPipeline optLevel ctxLevel groups prefmt l msg attrs ≠ none ↔
        enabled optLevel ctxLevel l = true) ∧
      handleJSON groups prefmt l msg attrs ≠ [] := by
  intro o c groups prefmt l msg attrs
  refine ⟨?_, handleJSON_ne_nil groups prefmt l msg attrs⟩
  unfold logPipeline
  cases h : enabled o c l <;> simp [h]

/-! ## Claim C5 -/

/-- The C5 failing record attribute: an any-kind value whose
`MarshalJSON` returns an error. -/
def c5Attrs : AttrList := .acons (gs ("k")) (.vany (.error (gs ("boom"))) (gs ("f"))) .anil

/-- C5: `appendAttr` does surface the marshaler's error as its return
value, but `Handle`'s attr loop discards it: the handler returns nil to
its caller (so the sink also never sees it), while the partial buffer
(with the dangling key) is still written through. -/
theorem c5_marshal_error_swallowed :
    (appendAttrJSON [] ⟨0, false⟩ (gs ("k")) (.vany (.error (gs ("boom"))) (gs ("f")))).2.2 =
      some (gs ("boom")) ∧
    (handleJSONResult [] [] 0 (gs ("m")) c5Attrs).2 = none ∧
    (handleJSONResult [] [] 0 (gs ("m")) c5Attrs).1 ≠ [] := by
  refine ⟨by decide, rfl, by decide⟩

/-! ## Claim C6 -/

/-- Models `journalWriter.Write`, success path: small payloads go as one
datagram whose reported count is the payload length; larger payloads are
drained into a memfd, the local slice is re-sliced to empty
(`b = b[:0]`), and the reported count is the length of that emptied
slice. The boolean reports whether the memfd path was taken. -/
def journalWrite (maxMsgSize : Int) (payload : GoStr) : Int × Bool :=
  if (payload.length : Int) > maxMsgSize then
    let b2 : GoStr := []
    ((b2.length : Int), true)
  else ((payload.length : Int), false)

/-- C6: a 4097-byte payload over a 4096-byte `max_msg_size` takes the
memfd path but reports a written count of 0, not 4097 — so the caller in
`Handle` sees `n ≠ len(b)` and raises a spurious short-write error. -/
theorem c6_memfd_reports_zero :
    journalWrite 4096 (List.replicate 4097 'a') = (0, true) ∧
    ((List.replicate 4097 'a').length : Int) = 4097 := by
  constructor
  · unfold journalWrite
    rw [List.length_replicate]
    norm_num
  · rw [List.length_replicate]
    norm_num

/-! ## Claim C7 -/

/-- C7: push then pop does not restore the dot-joined prefix: from group
stack `[g1]` (prefix `g1`), pushing `g2` yields prefix `g1.g2`, but the
pop truncates one byte before the last dot, leaving `g` instead of `g1`. -/
theorem c7_pop_off_by_one :
    (pushGroupJournal ⟨[gs ("g1")], gs ("g1"), []⟩ (gs ("g2"))).pfx = gs ("g1.g2") ∧
    (popGroupJournal (pushGroupJournal ⟨[gs ("g1")], gs ("g1"), []⟩ (gs ("g2")))).pfx = gs ("g") ∧
    gs ("g") ≠ gs ("g1") := by
  refine ⟨by decide, by decide, by decide⟩

/-! ## Claim C2 -/

/-- Concatenation of attribute lists (`X ++ R.attrs`). -/
def aappend : AttrList → AttrList → AttrList
  | .anil, bs => bs
  | .acons k v rest, bs => .acons k v (aappend rest bs)

/-- The C2 inherited attrs: one named group holding one string attr. -/
def c2X : AttrList := .acons (gs ("g")) (.vgroup (.acons (gs ("a")) (.vstr (gs ("b"))) .anil)) .anil

/-- The C2 record attrs: one plain string attr. -/
def c2R : AttrList := .acons (gs ("k")) (.vstr (gs ("v"))) .anil

/-- C2: for a journal handler with group stack `[G]`, pre-encoding `X`
via `WithAttrs` and then handling `R` emits `G.k=v`, while handling a
record with attrs `X ++ R.attrs` directly emits `k=v`: the inline pass
corrupts the prefix when popping the nested group (the pop off-by-one),
so the two byte sequences differ. -/
theorem c2_withattrs_vs_inline_divergence :
    handleJournal [gs ("G")] (withAttrsJournal [gs ("G")] [] c2X) 0 (gs ("m")) c2R =
      gs ("PRIORITY=6\nMESSAGE=m\nG.g.a=b\nG.k=v\n") ∧
    handleJournal [gs ("G")] [] 0 (gs ("m")) (aappend c2X c2R) =
      gs ("PRIORITY=6\nMESSAGE=m\nG.g.a=b\nk=v\n") ∧
    handleJournal [gs ("G")] (withAttrsJournal [gs ("G")] [] c2X) 0 (gs ("m")) c2R ≠
      handleJournal [gs ("G")] [] 0 (gs ("m")) (aappend c2X c2R) := by
  refine ⟨by decide, by decide, by decide⟩

/-! ## Claim C1: counterexample and witness -/

/-- The C1 counterexample attrs: a named group whose only member is an
empty-keyed string attr. -/
def c1BadAttrs : AttrList := .acons (gs ("g")) (.vgroup (.acons [] (.vstr (gs ("x"))) .anil)) .anil

/-- C1 counterexample: the claim's nesting function elides the group `g`
(its members include no non-empty-keyed attribute), but the encoder emits
it as an empty object: the emitted line is the serialization of a map
that does contain such a group, and differs from the claim's. -/
theorem c1_counterexample :
    specEntriesOrig c1BadAttrs = .jnil ∧
    specEntriesAmended c1BadAttrs = .jcons (gs ("g")) (.jobj .jnil) .jnil ∧
    handleJSON [] [] 0 (gs ("m")) c1BadAttrs =
      serialize (.jobj (.jcons (gs ("level")) (.jstr (gs ("INFO")))
        (.jcons (gs ("msg")) (.jstr (gs ("m"))) (.jcons (gs ("g")) (.jobj .jnil) .jnil)))) ++
        ['\n'] ∧
    handleJSON [] [] 0 (gs ("m")) c1BadAttrs ≠
      serialize (.jobj (.jcons (gs ("level")) (.jstr (gs ("INFO")))
        (.jcons (gs ("msg")) (.jstr (gs ("m"))) .jnil))) ++ ['\n'] := by
  refine ⟨rfl, rfl, by decide, by decide⟩

/-- Witness for the amended C1 theorem at a concrete record. -/
theorem handleJSON_eq_serialize_witness :
    anyFreeL (.acons (gs ("a")) (.vstr (gs ("b"))) .anil) = true ∧
    handleJSON [] [] 0 (gs ("hi")) (.acons (gs ("a")) (.vstr (gs ("b"))) .anil) =
      serialize (.jobj (recordEntries 0 (gs ("hi")) (.acons (gs ("a")) (.vstr (gs ("b"))) .anil)))
        ++ ['\n'] :=
  ⟨by decide, handleJSON_eq_serialize 0 (gs ("hi")) (.acons (gs ("a")) (.vstr (gs ("b"))) .anil)
    (by decide)⟩

/-! ## Claim C8 -/

/-- The condition in `proseHandler` that populates the ANSI printer:
`opts.forceANSI || (len(os.Getenv("NO_COLOR")) != 0 && isatty(w))`. -/
def ansiEngaged (forceANSI noColorNonEmpty istty : Bool) : Bool :=
  forceANSI || (noColorNonEmpty && istty)

/-- Modelled from the spec (claim C8): styling is engaged iff the writer
is a terminal and `NO_COLOR` is unset, except under the testing
`forceANSI` option. -/
def specAnsiEngaged (forceANSI noColorSet istty : Bool) : Bool :=
  forceANSI || (istty && !noColorSet)

/-- C8: the source engages styling exactly when `NO_COLOR` is set (and the
writer is a terminal) — the inverse of the documented convention: with
`NO_COLOR` set on a terminal it styles where the claim forbids it, and
with `NO_COLOR` unset on a terminal it does not style where the claim
requires it. -/
theorem c8_no_color_inverted :
    ansiEngaged false true true = true ∧ specAnsiEngaged false true true = false ∧
    ansiEngaged false false true = false ∧ specAnsiEngaged false false true = true := by
  refine ⟨rfl, rfl, rfl, rfl⟩

/-! ## Claim C9 -/

/-- The prose `WriteLevel` hook (ANSI disengaged, so the printer emits the
bare name): the level's short name, then
`strings.Repeat(" ", 5 - len(name))` — `Repeat` panics on a negative
count, modelled as `none` — then the unit separator. -/
def writeLevelProse (l : Int) : Option GoStr :=
  let v := levelChars l
  let ct : Int := 5 - (v.length : Int)
  if ct < 0 then none
  else some (v ++ List.replicate ct.toNat ' ' ++ ['\x1f', ' '])

/-- C9: at `SyslogNotice` (info+2) the short name is `INFO+2`, six bytes,
so the pad count is negative and `strings.Repeat` panics — the hook does
not terminate normally, contradicting the claim; a four-byte name such as
`INFO` is padded to width five as claimed. -/
theorem c9_long_level_name_panics :
    levelChars 2 = gs ("INFO+2") ∧
    writeLevelProse 2 = none ∧
    writeLevelProse 0 = some (gs ("INFO ") ++ ['\x1f', ' ']) := by
  refine ⟨by decide, by decide, by decide⟩

/-! ## Claim C10 -/

/-- Folding `pushGroup` appends the pushed names to the stack. -/
theorem foldl_push_groups (gs0 : List GoStr) (s : StateJournal) :
    (List.foldl pushGroupJournal s gs0).groups = s.groups ++ gs0 := by
  induction gs0 generalizing s with
  | nil => simp
  | cons g rest ih => simp [ih, pushGroupJournal]

/-- Folding `pushGroup` leaves the retained pre-formatted clone alone. -/
theorem foldl_push_prefmt (gs0 : List GoStr) (s : StateJournal) :
    (List.foldl pushGroupJournal s gs0).prefmt = s.prefmt := by
  induction gs0 generalizing s with
  | nil => rfl
  | cons g rest ih => simp [ih, pushGroupJournal]

/-- The dot-joined form of a group stack. -/
def specDotJoin : List GoStr → GoStr
  | [] => []
  | g :: rest => g ++ rest.flatMap (fun x => '.' :: x)

/-- Folding `pushGroup` onto a non-empty prefix appends one dot-prefixed
segment per name. -/
theorem foldl_push_pfx (gs0 : List GoStr) (s : StateJournal) (hs : s.pfx ≠ []) :
    (List.foldl pushGroupJournal s gs0).pfx =
      s.pfx ++ gs0.flatMap (fun x => '.' :: x) := by
  induction gs0 generalizing s with
  | nil => simp
  | cons g rest ih =>
      have hlen : s.pfx.length > 0 := List.length_pos.mpr hs
      have hstep : pushGroupJournal s g =
          { s with groups := s.groups ++ [g], pfx := s.pfx ++ '.' :: g } := by
        simp [pushGroupJournal, if_pos hlen]
      rw [List.foldl_cons, hstep, ih _ (by simp)]
      simp

/-- The method `stateJournal.Reset` rebuilds the prefix as the dot-join of the seeded
groups (for non-empty group names). -/
theorem resetJournal_pfx (old : StateJournal) (g : List GoStr) (p : GoStr)
    (h : ∀ x ∈ g, x ≠ []) :
    (resetJournal old g p).pfx = specDotJoin g := by
  cases g with
  | nil => rfl
  | cons g0 rest =>
      have hg0 : g0 ≠ [] := h g0 (by simp)
      unfold resetJournal
      rw [List.foldl_cons]
      have hstep : pushGroupJournal ⟨[], [], p⟩ g0 = ⟨[g0], g0, p⟩ := by
        simp [pushGroupJournal]
      rw [hstep, foldl_push_pfx rest _ hg0]
      rfl

/-- C10: renting a scratch state is fully deterministic in the seeds: for
the JSON state the depth is the seeded stack length with the bit clear;
for the journal state the stack, dot-joined prefix and retained
pre-formatted clone are rebuilt from the arguments alone, whatever the
pooled object previously held. -/
theorem c10_pool_reset_deterministic :
    ∀ (old1 old2 : StateJSON) (oldj1 oldj2 : StateJournal) (g : List GoStr) (p : GoStr),
      poolGetJSON old1 g p = poolGetJSON old2 g p ∧
      (poolGetJSON old1 g p).groups = (g.length : Int) ∧
      (poolGetJSON old1 g p).wroteAttr = false ∧
      poolGetJournal oldj1 g p = poolGetJournal oldj2 g p ∧
      (poolGetJournal oldj1 g p).groups = g ∧
      (poolGetJournal oldj1 g p).prefmt = p ∧
      ((∀ x ∈ g, x ≠ []) → (poolGetJournal oldj1 g p).pfx = specDotJoin g) := by
  intro old1 old2 oldj1 oldj2 g p
  refine ⟨rfl, rfl, rfl, rfl, ?_, ?_, ?_⟩
  · simpa using foldl_push_groups g ⟨[], [], p⟩
  · simpa using foldl_push_prefmt g ⟨[], [], p⟩
  · exact resetJournal_pfx oldj1 g p

/-- Witness for C10 at concrete seeds and distinct pooled leftovers. -/
theorem c10_pool_reset_deterministic_witness :
    (∀ x ∈ [gs ("a"), gs ("b")], x ≠ []) ∧
    (poolGetJournal ⟨[gs ("zz")], gs ("junk"), gs ("old")⟩ [gs ("a"), gs ("b")] (gs ("PF"))).pfx =
      specDotJoin [gs ("a"), gs ("b")] :=
  ⟨by decide,
    (c10_pool_reset_deterministic ⟨0, true⟩ ⟨5, false⟩
        ⟨[gs ("zz")], gs ("junk"), gs ("old")⟩ ⟨[], [], []⟩ [gs ("a"), gs ("b")] (gs ("PF"))).2.2.2.2.2.2
      (by decide)⟩
